import Mathlib

set_option maxHeartbeats 1000000

/-
Verification of the ramble application directive language
(src/lib/ramble/ramble/language/application_language.py).

The directive factories (workload, executable, workload_variable,
register_phase) each return a closure that mutates the state maps of an
application instance.  We embed each closure as a state transformer on an
`App` record.  A raised DirectiveError is modelled by `StepOut.err = some e`;
since Python exceptions leave earlier mutations in place, `StepOut.app`
always carries the state at the moment the closure returned or raised.

Python dictionaries are embedded as association lists with insertion-order
semantics: setting an existing key updates it in place, a new key is
appended at the end.
-/

namespace Ramble

/-- Modelled from the spec: the OUTPUT_CAPTURE enumeration from
ramble.schema.types (not under src): members STDOUT, STDERR, ALL, DEFAULT. -/
inductive OutputCapture where
  | STDOUT
  | STDERR
  | ALL
  | DEFAULT
deriving DecidableEq

/-- A definition error (DirectiveError from ramble.language.language_base),
carrying its message. -/
structure DirectiveError where
  msg : String
deriving DecidableEq

/-- The record stored by the workload directive under app.workloads[name]. -/
structure Workload where
  executables : List String
  inputs : List String
  tags : List String
deriving DecidableEq

/-- Modelled from the spec: CommandExecutable from ramble.util.executable
(not under src).  It holds the fields of the Executable record of the data
model; a field the caller does not pass keeps its default, in particular
`variables` defaults to the empty mapping. -/
structure CommandExecutable where
  name : String
  template : String
  use_mpi : Bool
  redirect : String
  output_capture : OutputCapture
  «variables» : List (String × String)
deriving DecidableEq

/-- One entry of a per-workload variable map, as stored by
_execute_workload_variable.  The optional `values` field models the
presence or absence of the values key of the Python dict. -/
structure WorkloadVarEntry where
  default : String
  description : String
  expandable : Bool
  values : Option (List String)
deriving DecidableEq

/-- Python dictionary lookup on an insertion-ordered association list. -/
def lookupKey {α : Type} : List (String × α) → String → Option α
  | [], _ => none
  | (k, v) :: rest, k' => if k = k' then some v else lookupKey rest k'

/-- Python dictionary assignment: an existing key is updated in place, a
new key is appended at the end. -/
def setKey {α : Type} : List (String × α) → String → α → List (String × α)
  | [], k, v => [(k, v)]
  | (k', v') :: rest, k, v =>
    if k' = k then (k, v) :: rest else (k', v') :: setKey rest k v

/-- In-place update of the value stored under a key (used for statements
such as app.workloads[name]["executables"] = ...). -/
def modifyKey {α : Type} : List (String × α) → String → (α → α) → List (String × α)
  | [], _, _ => []
  | (k', v') :: rest, k, f =>
    if k' = k then (k', f v') :: modifyKey rest k f
    else (k', v') :: modifyKey rest k f

/-- Python truthiness of an optional list argument: None and the empty
list are falsy (`if tags:`, `if values:`). -/
def pyTruthy (o : Option (List String)) : Bool :=
  match o with
  | none => false
  | some xs => !xs.isEmpty

/-- Remove duplicates from a name sequence keeping the first occurrence of
each name, preserving order. -/
def dedupFirst (xs : List String) : List String :=
  xs.foldl (fun acc x => if x ∈ acc then acc else acc ++ [x]) []

/-- Modelled from the spec: require_definition from
ramble.language.language_helpers (not under src).  Exactly one of
singular/plural must be supplied and resolve to a non-empty sequence of
names (a bare string counts as a one-element sequence); it fails with a
definition error naming the caller if neither is given, if both are given,
or if the resulting sequence is empty; on success it returns the sequence
with duplicates removed, first occurrence kept. -/
def require_definition (singular : Option String) (plural : Option (List String))
    (singular_label plural_label caller_label : String) :
    Except DirectiveError (List String) :=
  match singular, plural with
  | none, none =>
    .error ⟨"Directive " ++ caller_label ++ " requires at least one of " ++
      singular_label ++ " or " ++ plural_label ++ " to be defined"⟩
  | some s, none => .ok (dedupFirst [s])
  | none, some ps =>
    if ps.isEmpty then
      .error ⟨"Directive " ++ caller_label ++ " was given an empty " ++ plural_label⟩
    else
      .ok (dedupFirst ps)
  | some _, some _ =>
    .error ⟨"Directive " ++ caller_label ++ " requires exactly one of " ++
      singular_label ++ " or " ++ plural_label ++ " to be defined"⟩

/-- Modelled from the spec: merge_definitions from
ramble.language.language_helpers (not under src).  Both arguments are
optional; returns the ordered union, singular first then plural, with
duplicates removed; never fails. -/
def merge_definitions (singular : Option String) (plural : Option (List String)) :
    List String :=
  dedupFirst (singular.toList ++ plural.getD [])

/-- The Python value bound to the depends_on parameter of register_phase;
its runtime type matters because the directive checks isinstance(_, list). -/
inductive PyVal where
  | pylist (xs : List String)
  | pytuple (xs : List String)
  | pystr (s : String)
  | pyint (n : Int)
  | pynone
deriving DecidableEq

/-- isinstance(v, list). -/
def PyVal.isList : PyVal → Bool
  | .pylist _ => true
  | _ => false

/-- Whether the value is a Python sequence type (lists, tuples and strings
are sequences; ints and None are not). -/
def PyVal.isSequence : PyVal → Bool
  | .pylist _ => true
  | .pytuple _ => true
  | .pystr _ => true
  | _ => false

/-- The elements iterated over by `for dep in depends_on` when the value
is a list. -/
def PyVal.asList : PyVal → List String
  | .pylist xs => xs
  | _ => []

/-- The state maps of an application instance that the embedded directives
touch.  `pipelines` models `app._pipelines`, the recognized-pipelines list
supplied externally; `name` models `app.name`. -/
structure App where
  name : String
  pipelines : List String
  workloads : List (String × Workload)
  executables : List (String × CommandExecutable)
  workload_variables : List (String × List (String × WorkloadVarEntry))
  phase_definitions : List (String × List (String × List String))
deriving DecidableEq

/-- Result of executing one directive closure: the state after the call
(also on the error path, where earlier mutations persist) and the raised
definition error, if any. -/
structure StepOut where
  app : App
  err : Option DirectiveError
deriving DecidableEq

/-- The workload record first assigned by _execute_workload before any
validation runs. -/
def emptyWorkloadRecord : Workload := ⟨[], [], []⟩

/-- Embedding of _execute_workload: overwrites workloads[name] with an
empty record, resolves the executable names via require_definition (which
may raise), stores them, merges the inputs, and copies the tags when they
are truthy. -/
def execute_workload (name : String) (executables : Option (List String))
    (executable : Option String) (input : Option String)
    (inputs : Option (List String)) (tags : Option (List String))
    (app : App) : StepOut :=
  let app1 : App := { app with workloads := setKey app.workloads name emptyWorkloadRecord }
  match require_definition executable executables "executable" "executables" "workload" with
  | .error e => ⟨app1, some e⟩
  | .ok all_execs =>
    let app2 : App := { app1 with
      workloads := modifyKey app1.workloads name (fun w => { w with executables := all_execs }) }
    let all_inputs := merge_definitions input inputs
    let app3 : App := { app2 with
      workloads := modifyKey app2.workloads name (fun w => { w with inputs := all_inputs }) }
    let app4 : App :=
      if pyTruthy tags then
        { app3 with
          workloads := modifyKey app3.workloads name (fun w => { w with tags := tags.getD [] }) }
      else app3
    ⟨app4, none⟩

/-- Embedding of _execute_executable: stores a CommandExecutable under
executables[name].  The source passes name, template, use_mpi, redirect
and output_capture to the constructor but does not pass the variables
argument of the directive, so the stored record keeps the constructor
default (empty mapping) whatever `variables` was.  No validation is
performed on the template. -/
def execute_executable (name template : String) ( use_mpi : Bool)
    («variables» : List (String × String)) (redirect : String)
    (output_capture : OutputCapture) (app : App) : StepOut :=
  ⟨{ app with
      executables := setKey app.executables name
        ⟨name, template, use_mpi, redirect, output_capture, []⟩ },
    none⟩

/-- Embedding of _execute_workload_variable: resolves the workload names
via require_definition (which may raise), then for each workload name
lazily creates its variable map and inserts the entry, adding the values
field only when the values argument is truthy. -/
def execute_workload_variable (name default description : String)
    (values : Option (List String)) (workload : Option String)
    (workloads : Option (List String)) (expandable : Bool)
    (app : App) : StepOut :=
  match require_definition workload workloads "workload" "workloads" "workload_variable" with
  | .error e => ⟨app, some e⟩
  | .ok all_workloads =>
    let entry : WorkloadVarEntry :=
      ⟨default, description, expandable, if pyTruthy values then values else none⟩
    let wvs := all_workloads.foldl
      (fun m w => setKey m w (setKey ((lookupKey m w).getD []) name entry))
      app.workload_variables
    ⟨{ app with workload_variables := wvs }, none⟩

/-- The error message raised for an unrecognized pipeline: it names the
invalid pipeline value and lists the valid options. -/
def invalidPipelineMsg (pipeline : String) (pipelines : List String) : String :=
  "Directive register_phase was given an invalid pipeline \"" ++ pipeline ++
    "\"\nAvailable pipelines are:  " ++ toString pipelines

/-- The error message raised for a depends_on value that is not a list: it
names the directive and the offending application. -/
def badDependsOnMsg (appName : String) : String :=
  "Directive register_phase was given an invalid type for the depends_on attribute in application "
    ++ appName

/-- Appending the not-yet-present dependencies, in order, to the current
dependency list of a phase (the final loop of _execute_register_phase). -/
def addDeps (cur : List String) (ds : List String) : List String :=
  ds.foldl (fun acc d => if d ∈ acc then acc else acc ++ [d]) cur

/-- Embedding of _execute_register_phase: validates the pipeline against
app.pipelines, validates that depends_on is a list, then lazily creates
phase_definitions[pipeline] and phase_definitions[pipeline][name] and
appends each dependency not already present. -/
def execute_register_phase (name : String) (pipeline : String)
    (depends_on : PyVal) (app : App) : StepOut :=
  if pipeline ∈ app.pipelines then
    if depends_on.isList then
      let pd1 :=
        if (lookupKey app.phase_definitions pipeline).isSome then app.phase_definitions
        else setKey app.phase_definitions pipeline []
      let phases := (lookupKey pd1 pipeline).getD []
      let phases1 :=
        if (lookupKey phases name).isSome then phases
        else setKey phases name []
      let deps := (lookupKey phases1 name).getD []
      let deps1 := addDeps deps depends_on.asList
      ⟨{ app with phase_definitions := setKey pd1 pipeline (setKey phases1 name deps1) }, none⟩
    else
      ⟨app, some ⟨badDependsOnMsg app.name⟩⟩
  else
    ⟨app, some ⟨invalidPipelineMsg pipeline app.pipelines⟩⟩

/-- The dependency list recorded for a phase of a pipeline (empty when the
pipeline or phase is absent). -/
def phaseDeps (app : App) (pipeline phase : String) : List String :=
  (lookupKey ((lookupKey app.phase_definitions pipeline).getD []) phase).getD []

/-- The variable entry recorded for a variable name of a workload. -/
def varEntryAt (app : App) (wl vname : String) : Option WorkloadVarEntry :=
  (lookupKey app.workload_variables wl).bind (fun vars => lookupKey vars vname)

/-- A builder step of the Ordered Builder Registry: an opaque unit of work
with a stable identity (the registration sequence number) and its category
name.  Two steps created by distinct directive calls have distinct ids even
when their arguments coincide. -/
structure BuilderStep where
  id : Nat
  category : String
deriving DecidableEq

/-- Modelled from the spec: the step merge of ApplicationMeta, inherited
from SharedMeta / DirectiveMeta (ramble.language.shared_language and
ramble.language.language_base, not under src).  A step is kept only if no
step of the same identity was already kept; order of first occurrence is
preserved. -/
def dedupById (steps : List BuilderStep) : List BuilderStep :=
  steps.foldl (fun acc s => if acc.any (fun t => t.id = s.id) then acc else acc ++ [s]) []

/-- Modelled from the spec: when a type is defined, its directly declared
steps are appended to the concatenation of the merged step lists of its
ancestors, and the whole list is deduplicated by step identity. -/
def mergeSteps (ancestorSteps : List BuilderStep) (own : List BuilderStep) :
    List BuilderStep :=
  dedupById (ancestorSteps ++ own)

/-- The merged step list of the most derived type of a three-level
hierarchy declaring steps a, b and c respectively, root first. -/
def merged3 (a b c : List BuilderStep) : List BuilderStep :=
  mergeSteps (mergeSteps (mergeSteps [] a) b) c

/-- A small application instance used to instantiate the theorems at
concrete inputs: one recognized pipeline "X" and empty state maps. -/
def app0 : App := ⟨"app", ["X"], [], [], [], []⟩

/-- An application instance that already holds a workload record named
"w", used to observe what a later failing workload directive does to it. -/
def appWithOldW : App :=
  { app0 with workloads := [("w", ⟨["old_exec"], ["old_input"], ["old_tag"]⟩)] }

theorem lookupKey_setKey_self {α : Type} (m : List (String × α)) (k : String) (v : α) :
    lookupKey (setKey m k v) k = some v := by
  induction m with
  | nil => simp [setKey, lookupKey]
  | cons p rest ih =>
    obtain ⟨k', v'⟩ := p
    by_cases h : k' = k
    · simp [setKey, lookupKey, h]
    · simp [setKey, lookupKey, h, ih]

theorem lookupKey_setKey_ne {α : Type} (m : List (String × α)) (k k' : String) (v : α)
    (h : k ≠ k') : lookupKey (setKey m k v) k' = lookupKey m k' := by
  induction m with
  | nil => simp [setKey, lookupKey, h]
  | cons p rest ih =>
    obtain ⟨k₀, v₀⟩ := p
    by_cases h0 : k₀ = k
    · subst h0
      simp [setKey, lookupKey, h]
    · simp [setKey, lookupKey, h0, ih]

theorem lookupKey_modifyKey_self {α : Type} (m : List (String × α)) (k : String) (f : α → α) :
    lookupKey (modifyKey m k f) k = (lookupKey m k).map f := by
  induction m with
  | nil => simp [modifyKey, lookupKey]
  | cons p rest ih =>
    obtain ⟨k₀, v₀⟩ := p
    by_cases h0 : k₀ = k
    · subst h0
      simp [modifyKey, lookupKey]
    · simp [modifyKey, lookupKey, h0, ih]

theorem addDeps_cons (cur : List String) (d : String) (ds : List String) :
    addDeps cur (d :: ds) = addDeps (if d ∈ cur then cur else cur ++ [d]) ds := by
  simp [addDeps]

theorem addDeps_keepsOld (ds cur : List String) : cur <+: addDeps cur ds := by
  induction ds generalizing cur with
  | nil => simp [addDeps]
  | cons d ds ih =>
    rw [addDeps_cons]
    refine List.IsPrefix.trans ?_ (ih _)
    by_cases h : d ∈ cur
    · simp [h]
    · simp [h]

theorem addDeps_nodup (ds cur : List String) (h : cur.Nodup) : (addDeps cur ds).Nodup := by
  induction ds generalizing cur with
  | nil => simpa [addDeps] using h
  | cons d ds ih =>
    rw [addDeps_cons]
    by_cases hd : d ∈ cur
    · simp only [if_pos hd]
      exact ih _ h
    · simp only [if_neg hd]
      refine ih _ ?_
      simp [List.nodup_append, h, List.Disjoint]
      intro a ha had
      exact hd (had ▸ ha)

theorem addDeps_mem (ds cur : List String) (x : String) :
    x ∈ addDeps cur ds ↔ x ∈ cur ∨ x ∈ ds := by
  induction ds generalizing cur with
  | nil => simp [addDeps]
  | cons d ds ih =>
    rw [addDeps_cons]
    by_cases hd : d ∈ cur
    · rw [if_pos hd, ih]
      constructor
      · rintro (h | h)
        · exact Or.inl h
        · exact Or.inr (List.mem_cons_of_mem _ h)
      · rintro (h | h)
        · exact Or.inl h
        · rcases List.mem_cons.mp h with h | h
          · exact Or.inl (h ▸ hd)
          · exact Or.inr h
    · rw [if_neg hd, ih]
      simp [List.mem_append, List.mem_cons, or_assoc]

theorem register_phase_state (app : App) (name pipeline : String) (ds : List String)
    (hp : pipeline ∈ app.pipelines) :
    (execute_register_phase name pipeline (.pylist ds) app).err = none ∧
    phaseDeps (execute_register_phase name pipeline (.pylist ds) app).app pipeline name
      = addDeps (phaseDeps app pipeline name) ds := by
  have hlist : (PyVal.pylist ds).isList = true := rfl
  refine ⟨by simp [execute_register_phase, hp, hlist], ?_⟩
  rcases h1 : lookupKey app.phase_definitions pipeline with _ | phs
  · simp [execute_register_phase, hp, hlist, phaseDeps, h1, lookupKey_setKey_self,
      setKey, lookupKey, PyVal.asList]
  · rcases h2 : lookupKey phs name with _ | deps0
    · simp [execute_register_phase, hp, hlist, phaseDeps, h1, h2, lookupKey_setKey_self,
        PyVal.asList]
    · simp [execute_register_phase, hp, hlist, phaseDeps, h1, h2, lookupKey_setKey_self,
        PyVal.asList]

/-- C1: executing register_phase against a recognized pipeline succeeds and
updates the dependency list of phase_definitions[pipeline][name] to
addDeps of the previous list: the previous list is a prefix of the new one
(no dependency is ever removed and their order is preserved), duplicate
freedom is preserved, and the new list holds exactly the old dependencies
together with the ones of this call, appended in first-seen order. -/
theorem c1_phase_dependencies_monotone (app : App) (name pipeline : String)
    (ds : List String) (hp : pipeline ∈ app.pipelines) :
    (execute_register_phase name pipeline (.pylist ds) app).err = none ∧
    phaseDeps (execute_register_phase name pipeline (.pylist ds) app).app pipeline name
      = addDeps (phaseDeps app pipeline name) ds ∧
    phaseDeps app pipeline name
      <+: phaseDeps (execute_register_phase name pipeline (.pylist ds) app).app pipeline name ∧
    ((phaseDeps app pipeline name).Nodup →
      (phaseDeps (execute_register_phase name pipeline (.pylist ds) app).app pipeline name).Nodup) ∧
    ∀ x, x ∈ phaseDeps (execute_register_phase name pipeline (.pylist ds) app).app pipeline name
      ↔ x ∈ phaseDeps app pipeline name ∨ x ∈ ds := by
  obtain ⟨he, hd⟩ := register_phase_state app name pipeline ds hp
  refine ⟨he, hd, ?_, ?_, ?_⟩
  · rw [hd]
    exact addDeps_keepsOld ds _
  · rw [hd]
    exact addDeps_nodup ds _
  · intro x
    rw [hd]
    exact addDeps_mem ds _ x

/-- Witness for C1: register_phase("p", pipeline="X", depends_on=["a"])
followed by register_phase("p", pipeline="X", depends_on=["a","b"]) yields
phase_definitions["X"]["p"] == ["a","b"], and the first list is a prefix
of the second. -/
theorem c1_witness :
    phaseDeps (execute_register_phase "p" "X" (.pylist ["a"]) app0).app "X" "p" = ["a"] ∧
    phaseDeps (execute_register_phase "p" "X" (.pylist ["a", "b"])
      (execute_register_phase "p" "X" (.pylist ["a"]) app0).app).app "X" "p" = ["a", "b"] ∧
    phaseDeps (execute_register_phase "p" "X" (.pylist ["a"]) app0).app "X" "p"
      <+: phaseDeps (execute_register_phase "p" "X" (.pylist ["a", "b"])
        (execute_register_phase "p" "X" (.pylist ["a"]) app0).app).app "X" "p" := by
  refine ⟨rfl, rfl, ?_⟩
  exact (c1_phase_dependencies_monotone
    (execute_register_phase "p" "X" (.pylist ["a"]) app0).app "p" "X" ["a", "b"]
    (by decide)).2.2.1

/-- C6: register_phase with a pipeline that is not among the recognized
pipelines of the application fails, whatever the other arguments are,
leaving the state untouched, and the error message names the invalid
pipeline value and lists the valid options. -/
theorem c6_register_phase_pipeline_validated (app : App) (name pipeline : String)
    (depends_on : PyVal) (hp : pipeline ∉ app.pipelines) :
    execute_register_phase name pipeline depends_on app
      = ⟨app, some ⟨invalidPipelineMsg pipeline app.pipelines⟩⟩ ∧
    invalidPipelineMsg pipeline app.pipelines
      = "Directive register_phase was given an invalid pipeline \"" ++ pipeline ++
        "\"\nAvailable pipelines are:  " ++ toString app.pipelines := by
  exact ⟨by simp [execute_register_phase, hp], rfl⟩

/-- Witness for C6: register_phase("p", pipeline="bogus") fails on an
application whose only recognized pipeline is "X". -/
theorem c6_witness :
    execute_register_phase "p" "bogus" .pynone app0
      = ⟨app0, some ⟨invalidPipelineMsg "bogus" ["X"]⟩⟩ :=
  (c6_register_phase_pipeline_validated app0 "p" "bogus" .pynone (by decide)).1

/-- Counterexample for C7: a tuple is a Python sequence type, yet
register_phase raises a definition error on it, because the source checks
isinstance(depends_on, list), not general sequence-ness. -/
theorem c7_counterexample :
    (PyVal.pytuple ["a"]).isSequence = true ∧
    (execute_register_phase "p" "X" (.pytuple ["a"]) app0).err
      = some ⟨badDependsOnMsg "app"⟩ := by
  exact ⟨rfl, rfl⟩

/-- C7 (amended): with a recognized pipeline, register_phase fails exactly
when depends_on is not a Python list (tuples and other sequences are
rejected too), the state is left untouched, and the error message names
the register_phase directive and the offending application. -/
theorem c7_register_phase_depends_on_must_be_list (app : App) (name pipeline : String)
    (depends_on : PyVal) (hp : pipeline ∈ app.pipelines) :
    ((execute_register_phase name pipeline depends_on app).err.isSome
      ↔ depends_on.isList = false) ∧
    (depends_on.isList = false →
      execute_register_phase name pipeline depends_on app
        = ⟨app, some ⟨badDependsOnMsg app.name⟩⟩) ∧
    badDependsOnMsg app.name
      = "Directive register_phase was given an invalid type for the depends_on attribute in application "
        ++ app.name := by
  cases hl : depends_on.isList
  · simp [execute_register_phase, hp, hl, badDependsOnMsg]
  · simp [execute_register_phase, hp, hl, badDependsOnMsg]

/-- Witness for C7 (amended): depends_on="not-a-list" (a string) makes
register_phase fail even though the pipeline is recognized. -/
theorem c7_witness :
    (execute_register_phase "p" "X" (.pystr "not-a-list") app0).err.isSome = true ∧
    execute_register_phase "p" "X" (.pystr "not-a-list") app0
      = ⟨app0, some ⟨badDependsOnMsg "app"⟩⟩ := by
  have h := c7_register_phase_depends_on_must_be_list app0 "p" "X" (.pystr "not-a-list")
    (by decide)
  exact ⟨h.1.mpr rfl, h.2.1 rfl⟩

/-- C10: whenever register_phase raises a definition error, the
application state is exactly what it was before the call: both validations
run before any mutation of phase_definitions. -/
theorem c10_register_phase_atomic_on_failure (name pipeline : String)
    (depends_on : PyVal) (app : App)
    (h : (execute_register_phase name pipeline depends_on app).err.isSome) :
    (execute_register_phase name pipeline depends_on app).app = app := by
  by_cases hp : pipeline ∈ app.pipelines
  · cases hl : depends_on.isList
    · simp [execute_register_phase, hp, hl]
    · exfalso
      simp [execute_register_phase, hp, hl] at h
  · simp [execute_register_phase, hp]

/-- Witness for C10: the failing register_phase("p", pipeline="bogus")
call leaves the application untouched. -/
theorem c10_witness :
    (execute_register_phase "p" "bogus" .pynone app0).app = app0 :=
  c10_register_phase_atomic_on_failure "p" "bogus" .pynone app0 (by decide)

theorem execute_workload_err (name : String) (executables : Option (List String))
    (executable : Option String) (input : Option String) (inputs : Option (List String))
    (tags : Option (List String)) (app : App) (e : DirectiveError)
    (h : require_definition executable executables "executable" "executables" "workload"
      = .error e) :
    execute_workload name executables executable input inputs tags app
      = ⟨{ app with workloads := setKey app.workloads name emptyWorkloadRecord }, some e⟩ := by
  simp [execute_workload, h]

theorem execute_workload_ok (name : String) (executables : Option (List String))
    (executable : Option String) (input : Option String) (inputs : Option (List String))
    (tags : Option (List String)) (app : App) (r : List String)
    (h : require_definition executable executables "executable" "executables" "workload"
      = .ok r) :
    (execute_workload name executables executable input inputs tags app).err = none ∧
    lookupKey (execute_workload name executables executable input inputs tags app).app.workloads
        name
      = some ⟨r, merge_definitions input inputs,
          if pyTruthy tags then tags.getD [] else []⟩ := by
  by_cases ht : pyTruthy tags
  · simp [execute_workload, h, ht, lookupKey_modifyKey_self, lookupKey_setKey_self,
      emptyWorkloadRecord]
  · simp [execute_workload, h, ht, lookupKey_modifyKey_self, lookupKey_setKey_self,
      emptyWorkloadRecord]

/-- C4: a successful workload directive stores under workloads[name] a
record computed from the call arguments alone — the resolved executables,
the merged inputs and the tags — so it fully replaces whatever record was
stored under that name before. -/
theorem c4_workload_replaces (app : App) (name : String)
    (executables : Option (List String)) (executable : Option String)
    (input : Option String) (inputs : Option (List String))
    (tags : Option (List String)) (r : List String)
    (h : require_definition executable executables "executable" "executables" "workload"
      = .ok r) :
    (execute_workload name executables executable input inputs tags app).err = none ∧
    lookupKey (execute_workload name executables executable input inputs tags app).app.workloads
        name
      = some ⟨r, merge_definitions input inputs,
          if pyTruthy tags then tags.getD [] else []⟩ :=
  execute_workload_ok name executables executable input inputs tags app r h

/-- Witness for C4: workload("w", executables=["e1","e2"]) then
workload("w", executable="e3") leaves workloads["w"].executables == ["e3"]
with no trace of the earlier record. -/
theorem c4_witness :
    lookupKey (execute_workload "w" none (some "e3") none none none
      (execute_workload "w" (some ["e1", "e2"]) none none none none app0).app).app.workloads
        "w"
      = some ⟨["e3"], [], []⟩ := by
  have h := c4_workload_replaces
    (execute_workload "w" (some ["e1", "e2"]) none none none none app0).app
    "w" none (some "e3") none none none ["e3"] rfl
  exact h.2

/-- C5: the workload directive fails when neither executable nor
executables is supplied and when the supplied executables list is empty;
with exactly one of them supplied and non-empty it succeeds, a bare string
counting as a one-element sequence, and stores the names with duplicates
removed, first occurrence kept. -/
theorem c5_workload_requires_executables (name : String) (input : Option String)
    (inputs : Option (List String)) (tags : Option (List String)) (app : App) :
    (execute_workload name none none input inputs tags app).err.isSome = true ∧
    (execute_workload name (some []) none input inputs tags app).err.isSome = true ∧
    (∀ s : String, (execute_workload name none (some s) input inputs tags app).err = none ∧
      lookupKey (execute_workload name none (some s) input inputs tags app).app.workloads name
        = some ⟨[s], merge_definitions input inputs,
            if pyTruthy tags then tags.getD [] else []⟩) ∧
    (∀ ps : List String, ps ≠ [] →
      (execute_workload name (some ps) none input inputs tags app).err = none ∧
      lookupKey (execute_workload name (some ps) none input inputs tags app).app.workloads name
        = some ⟨dedupFirst ps, merge_definitions input inputs,
            if pyTruthy tags then tags.getD [] else []⟩) := by
  refine ⟨?_, ?_, ?_, ?_⟩
  · simp [execute_workload, require_definition]
  · simp [execute_workload, require_definition]
  · intro s
    have h : require_definition (some s) none "executable" "executables" "workload"
        = .ok [s] := by
      simp [require_definition, dedupFirst]
    exact execute_workload_ok name none (some s) input inputs tags app [s] h
  · intro ps hps
    have h : require_definition none (some ps) "executable" "executables" "workload"
        = .ok (dedupFirst ps) := by
      cases ps with
      | nil => exact absurd rfl hps
      | cons p ps => simp [require_definition]
    exact execute_workload_ok name (some ps) none input inputs tags app (dedupFirst ps) h

/-- Witness for C5: workload("w") with no executables fails; supplying
executables=["e1","e1","e2"] succeeds and stores ["e1","e2"], duplicates
removed with the first occurrence kept. -/
theorem c5_witness :
    (execute_workload "w" none none none none none app0).err.isSome = true ∧
    (execute_workload "w" (some ["e1", "e1", "e2"]) none none none none app0).err = none ∧
    lookupKey (execute_workload "w" (some ["e1", "e1", "e2"]) none none none none
        app0).app.workloads "w"
      = some ⟨["e1", "e2"], [], []⟩ := by
  have h := c5_workload_requires_executables "w" none none none app0
  have h4 := h.2.2.2 ["e1", "e1", "e2"] (by decide)
  exact ⟨h.1, h4.1, h4.2⟩

/-- C9: the workload directive is not atomic on failure: it first
overwrites workloads[name] with the empty record, so whenever it raises a
definition error the record stored under name is the empty record,
whatever was there before. -/
theorem c9_workload_not_atomic_on_failure (name : String)
    (executables : Option (List String)) (executable : Option String)
    (input : Option String) (inputs : Option (List String))
    (tags : Option (List String)) (app : App)
    (h : (execute_workload name executables executable input inputs tags app).err.isSome) :
    lookupKey (execute_workload name executables executable input inputs tags app).app.workloads
        name
      = some emptyWorkloadRecord := by
  rcases hr : require_definition executable executables "executable" "executables" "workload"
    with e | r
  · rw [execute_workload_err name executables executable input inputs tags app e hr]
    exact lookupKey_setKey_self app.workloads name emptyWorkloadRecord
  · have hok := execute_workload_ok name executables executable input inputs tags app r hr
    rw [hok.1] at h
    simp at h

/-- Witness for C9: an application already holding workloads["w"] with
executables ["old_exec"]; the failing workload("w") call destroys it and
leaves the empty record in its place. -/
theorem c9_witness :
    lookupKey appWithOldW.workloads "w" = some ⟨["old_exec"], ["old_input"], ["old_tag"]⟩ ∧
    (execute_workload "w" none none none none none appWithOldW).err.isSome = true ∧
    lookupKey (execute_workload "w" none none none none none appWithOldW).app.workloads "w"
      = some emptyWorkloadRecord := by
  refine ⟨rfl, rfl, ?_⟩
  exact c9_workload_not_atomic_on_failure "w" none none none none none appWithOldW rfl

/-- C3 (evaluation of the code): the executable directive always succeeds
(no placeholder validation) and stores name, template, use_mpi, redirect
and output_capture verbatim, but the stored variables mapping is the
constructor default (empty) whatever variables mapping was supplied: the
source never passes the variables argument to CommandExecutable. -/
theorem c3_executable_variables_dropped (name template : String) ( use_mpi : Bool)
    («variables» : List (String × String)) (redirect : String)
    (output_capture : OutputCapture) (app : App) :
    (execute_executable name template use_mpi «variables» redirect output_capture app).err
      = none ∧
    lookupKey (execute_executable name template use_mpi «variables» redirect output_capture
        app).app.executables name
      = some ⟨name, template, use_mpi, redirect, output_capture, []⟩ :=
  ⟨rfl, by simp [execute_executable, lookupKey_setKey_self]⟩

theorem wlvar_fold_lookup (vname : String) (entry : WorkloadVarEntry) :
    ∀ (l : List String) (m : List (String × List (String × WorkloadVarEntry))) (w : String),
      (w ∈ l ∨ (lookupKey m w).bind (fun vars => lookupKey vars vname) = some entry) →
      (lookupKey (l.foldl
          (fun m w => setKey m w (setKey ((lookupKey m w).getD []) vname entry)) m) w).bind
        (fun vars => lookupKey vars vname) = some entry := by
  intro l
  induction l with
  | nil =>
    intro m w h
    rcases h with h | h
    · cases h
    · simpa using h
  | cons a l ih =>
    intro m w h
    rw [List.foldl_cons]
    apply ih
    by_cases hwa : w = a
    · subst hwa
      right
      simp [lookupKey_setKey_self]
    · rcases h with h | h
      · rcases List.mem_cons.mp h with h | h
        · exact absurd h hwa
        · exact Or.inl h
      · right
        rw [lookupKey_setKey_ne _ a w _ (fun hh => hwa hh.symm)]
        exact h

/-- Counterexample for C8: supplying values=[] (a supplied but empty
values argument) stores an entry without the values key, because the
source guards the key with the truthiness test `if values:`. -/
theorem c8_counterexample :
    (some ([] : List String)).isSome = true ∧
    (execute_workload_variable "v" "1" "d" (some []) none (some ["w1"]) true app0).err
      = none ∧
    varEntryAt (execute_workload_variable "v" "1" "d" (some []) none (some ["w1"]) true
        app0).app "w1" "v"
      = some ⟨"1", "d", true, none⟩ :=
  ⟨rfl, rfl, rfl⟩

/-- C8 (amended): a successful workload_variable directive inserts, for
every workload name of the resolved set, the identical entry holding
default, description and expandable, lazily creating the per-workload map,
and the entry carries a values key exactly when the values argument is
truthy (supplied and non-empty). -/
theorem c8_workload_variable_fanout (app : App) (name default description : String)
    (values : Option (List String)) (workload : Option String)
    (workloads : Option (List String)) (expandable : Bool) (r : List String)
    (h : require_definition workload workloads "workload" "workloads" "workload_variable"
      = .ok r) :
    (execute_workload_variable name default description values workload workloads expandable
        app).err = none ∧
    ∀ w ∈ r, varEntryAt (execute_workload_variable name default description values workload
        workloads expandable app).app w name
      = some ⟨default, description, expandable,
          if pyTruthy values then values else none⟩ := by
  constructor
  · simp [execute_workload_variable, h]
  · intro w hw
    simp only [execute_workload_variable, h, varEntryAt]
    exact wlvar_fold_lookup name _ r app.workload_variables w (Or.inl hw)

/-- Witness for C8 (amended): workload_variable("v", default="1",
description="d", workloads=["w1","w2"]) stores the identical entry under
both workloads, with no values key. -/
theorem c8_witness :
    varEntryAt (execute_workload_variable "v" "1" "d" none none (some ["w1", "w2"]) true
        app0).app "w1" "v" = some ⟨"1", "d", true, none⟩ ∧
    varEntryAt (execute_workload_variable "v" "1" "d" none none (some ["w1", "w2"]) true
        app0).app "w2" "v" = some ⟨"1", "d", true, none⟩ := by
  have h := c8_workload_variable_fanout app0 "v" "1" "d" none none (some ["w1", "w2"]) true
    ["w1", "w2"] rfl
  exact ⟨h.2 "w1" (by decide), h.2 "w2" (by decide)⟩

theorem dedupById_fold_pairwise (xs acc : List BuilderStep)
    (h : acc.Pairwise (fun a b => a.id ≠ b.id)) :
    (xs.foldl (fun acc s => if acc.any (fun t => t.id = s.id) then acc else acc ++ [s])
        acc).Pairwise (fun a b => a.id ≠ b.id) := by
  induction xs generalizing acc with
  | nil => simpa using h
  | cons x xs ih =>
    rw [List.foldl_cons]
    apply ih
    by_cases hx : acc.any (fun t => t.id = x.id) = true
    · simpa [hx] using h
    · rw [if_neg (by simpa using hx)]
      rw [List.pairwise_append]
      refine ⟨h, by simp, ?_⟩
      intro a ha b hb
      simp only [List.mem_singleton] at hb
      subst hb
      simp only [List.any_eq_true, decide_eq_true_eq] at hx
      intro hab
      exact hx ⟨a, ha, hab⟩

theorem dedupById_fold_eq_self (xs acc : List BuilderStep)
    (h : (acc ++ xs).Pairwise (fun a b => a.id ≠ b.id)) :
    xs.foldl (fun acc s => if acc.any (fun t => t.id = s.id) then acc else acc ++ [s]) acc
      = acc ++ xs := by
  induction xs generalizing acc with
  | nil => simp
  | cons x xs ih =>
    rw [List.foldl_cons]
    have hnot : ¬ acc.any (fun t => t.id = x.id) = true := by
      simp only [List.any_eq_true, decide_eq_true_eq]
      rintro ⟨t, ht, hid⟩
      have := (List.pairwise_append.mp h).2.2 t ht x (List.mem_cons_self x xs)
      exact this hid
    rw [if_neg hnot]
    have h' : ((acc ++ [x]) ++ xs).Pairwise (fun a b => a.id ≠ b.id) := by
      rw [List.append_assoc, List.singleton_append]
      exact h
    rw [ih (acc ++ [x]) h', List.append_assoc, List.singleton_append]

/-- C2: when the underlying step objects of a three-level hierarchy are
pairwise distinct (which holds even when their arguments coincide, since
identity is per directive call), the merged builder-step list of the most
derived type is exactly the ancestor lists followed by its own, in
declaration order, hence has 3N entries for N steps per level; and for any
merge, every step identity occurs at most once in the merged list. -/
theorem c2_step_merge (a b c : List BuilderStep)
    (h : ((a ++ b ++ c).map (fun s => s.id)).Nodup) :
    merged3 a b c = a ++ b ++ c ∧
    (merged3 a b c).length = a.length + b.length + c.length ∧
    ∀ ancestorSteps own : List BuilderStep,
      ((mergeSteps ancestorSteps own).map (fun s => s.id)).Nodup := by
  have hpw : (a ++ b ++ c).Pairwise (fun x y => x.id ≠ y.id) :=
    List.pairwise_map.mp h
  have hab : (a ++ b).Pairwise (fun x y => x.id ≠ y.id) :=
    List.Pairwise.sublist (List.sublist_append_left (a ++ b) c) hpw
  have ha : a.Pairwise (fun x y => x.id ≠ y.id) :=
    List.Pairwise.sublist (List.sublist_append_left a b) hab
  have step1 : mergeSteps [] a = a := by
    have := dedupById_fold_eq_self a [] (by simpa using ha)
    simpa [mergeSteps, dedupById] using this
  have step2 : mergeSteps a b = a ++ b := by
    have := dedupById_fold_eq_self (a ++ b) [] (by simpa using hab)
    simpa [mergeSteps, dedupById] using this
  have step3 : mergeSteps (a ++ b) c = a ++ b ++ c := by
    have := dedupById_fold_eq_self ((a ++ b) ++ c) [] (by simpa using hpw)
    simpa [mergeSteps, dedupById] using this
  have hm : merged3 a b c = a ++ b ++ c := by
    rw [merged3, step1, step2, step3]
  refine ⟨hm, by rw [hm]; simp [Nat.add_assoc], ?_⟩
  intro ancestorSteps own
  have hpair := dedupById_fold_pairwise (ancestorSteps ++ own) [] (by simp)
  show (List.map _ _).Pairwise _
  exact List.pairwise_map.mpr hpair

/-- Witness for C2: a three-level hierarchy declaring one step each (all
with the same category, i.e. identical arguments) merges to the three
steps in ancestor-before-descendant order, length 3 = 3 times 1; and a
descendant re-exposing an inherited step object does not duplicate it. -/
theorem c2_witness :
    merged3 [⟨0, "install"⟩] [⟨1, "install"⟩] [⟨2, "install"⟩]
      = [⟨0, "install"⟩, ⟨1, "install"⟩, ⟨2, "install"⟩] ∧
    (merged3 [⟨0, "install"⟩] [⟨1, "install"⟩] [⟨2, "install"⟩]).length = 3 ∧
    merged3 [⟨0, "install"⟩] [⟨1, "install"⟩] [⟨0, "install"⟩, ⟨2, "install"⟩]
      = [⟨0, "install"⟩, ⟨1, "install"⟩, ⟨2, "install"⟩] := by
  have h := c2_step_merge [⟨0, "install"⟩] [⟨1, "install"⟩] [⟨2, "install"⟩] (by decide)
  exact ⟨h.1, h.2.1, rfl⟩

end Ramble
